import Mathlib

/-!
Verification of the web-scraping pipeline (three near-duplicate Python
variants: `webScraping.py` / `webScraping3.py`, the disk-staging variant,
and `webScraping2.py`, the in-memory variant).

The HTML parser (BeautifulSoup) and the browser are external collaborators:
a parsed page is modelled directly as a `Node` tree, and fetching as an
oracle `String → Node`.  Every extraction function below is a direct
translation of the corresponding Python function; Python exceptions
(`IndexError` from `split(':', 1)[1]`, `FileNotFoundError` from opening a
missing file) are modelled with `Except String`.
-/

namespace WebScrape

/-- Character class of Python's regex `\s` / `str.strip()` default, for the
ASCII range (all inputs in this development are ASCII). -/
def isPySpace (c : Char) : Bool :=
  c = ' ' || c = '\t' || c = '\n' || c = '\r' || c = '\x0b' || c = '\x0c'

/-- Python `str.strip()` on a character list. -/
def pyStripL (l : List Char) : List Char :=
  ((l.dropWhile isPySpace).reverse.dropWhile isPySpace).reverse

/-- Python `str.strip()`. -/
def pyStrip (s : String) : String :=
  (pyStripL s.data).asString

/-- Substring containment, Python's `needle in hay`. -/
def containsSub (needle : List Char) : List Char → Bool
  | [] => needle.isEmpty
  | c :: t => needle.isPrefixOf (c :: t) || containsSub needle t

/-- Part of a string after the first colon: `s.split(':', 1)` yields a
two-element list exactly when a colon occurs, and indexing `[1]` of a
one-element list raises `IndexError`, so the colon-free case is `none`. -/
def splitColonTail : List Char → Option (List Char)
  | [] => none
  | c :: t => if c = ':' then some t else splitColonTail t

/-- Generic engine for `re.sub(pattern, '.', s)` where the pattern is such
that a match attempt at a position is a deterministic function of the
suffix (true for the three author-cleaning patterns, argued at each
`tryAt`).  Scans left to right; on a match, emits `'.'` and resumes after
the consumed text; otherwise keeps the character.  Fuel bounds recursion:
every match consumes at least one character, so fuel `l.length` is exact. -/
def pySubAux (tryAt : List Char → Option (List Char)) : Nat → List Char → List Char
  | 0, l => l
  | _ + 1, [] => []
  | fuel + 1, c :: cs =>
    match tryAt (c :: cs) with
    | some rest => '.' :: pySubAux tryAt fuel rest
    | none => c :: pySubAux tryAt fuel cs

/-- Run the substitution engine with exact fuel. -/
def pySub (tryAt : List Char → Option (List Char)) (l : List Char) : List Char :=
  pySubAux tryAt l.length l

/-- Literal `email:` of the first author-cleaning pattern. -/
def emailLit : List Char := ['e', 'm', 'a', 'i', 'l', ':']

/-- Match attempt for `\s*email:[^\s]+` at the head of the suffix.  The
literal begins with a non-space character, so greedy `\s*` can only consume
the whole leading whitespace run; `[^\s]+` needs at least one non-space
character right after the literal and then greedily consumes non-spaces. -/
def tryEmail (cs : List Char) : Option (List Char) :=
  let rest := cs.dropWhile isPySpace
  if emailLit.isPrefixOf rest then
    match rest.drop 6 with
    | [] => none
    | c :: t => if isPySpace c then none else some ((c :: t).dropWhile (fun d => !isPySpace d))
  else none

/-- Match attempt for `\s*\(` at the head of the suffix: `(` is not a space
character, so the match succeeds exactly when the first non-space character
of the suffix is `(` (consuming the space run and the parenthesis). -/
def tryOpen (cs : List Char) : Option (List Char) :=
  match cs.dropWhile isPySpace with
  | c :: rest => if c = '(' then some rest else none
  | [] => none

/-- Match attempt for `\)\s*` at the head of the suffix. -/
def tryClose : List Char → Option (List Char)
  | c :: rest => if c = ')' then some (rest.dropWhile isPySpace) else none
  | [] => none

/-- Three author-cleaning substitutions of both variants, in source order:
`re.sub(r'\s*email:[^\s]+', '.', a)`, then `re.sub(r'\s*\(', '.', a)`,
then `re.sub(r'\)\s*', '.', a)`. -/
def cleanAuthors (s : String) : String :=
  (pySub tryClose (pySub tryOpen (pySub tryEmail s.data))).asString

/-- Single-quote character (code point 39) of the DOI pattern. -/
def squote : Char := Char.ofNat 39

/-- Match attempt for the pattern `doi`, optional whitespace, colon,
optional whitespace, then a single-quoted group of one or more non-quote
characters, at the head of the suffix, returning the capture group.  The
greedy group stops exactly before the next quote, which the closing quote
must then match. -/
def tryDoiAt (cs : List Char) : Option (List Char) :=
  if ['d', 'o', 'i'].isPrefixOf cs then
    match (cs.drop 3).dropWhile isPySpace with
    | c :: r2 =>
      if c = ':' then
        match r2.dropWhile isPySpace with
        | q :: r4 =>
          if q = squote then
            let g := r4.takeWhile (fun d => d ≠ squote)
            match r4.drop g.length with
            | e :: _ => if e = squote && !g.isEmpty then some g else none
            | [] => none
          else none
        | [] => none
      else none
    | [] => none
  else none

/-- Python `re.search(r"doi\s*:\s*'([^']+)'", s)`: leftmost match wins. -/
def doiSearch : List Char → Option (List Char)
  | [] => none
  | c :: t =>
    match tryDoiAt (c :: t) with
    | some g => some g
    | none => doiSearch t

/-- Marker substring `var journalAdParams =` looked for in script blocks. -/
def adMarker : List Char := "var journalAdParams =".data

/-- Python `filename.endswith('.html')`. -/
def endsWithHtml (n : String) : Bool :=
  List.isSuffixOf ".html".data n.data

/-- Parsed HTML node, the view of a BeautifulSoup document the five
extractors need: element tags with their attribute lists and children, and
navigable strings. -/
inductive Node where
  | text (s : String)
  | elem (tag : String) (attrs : List (String × String)) (children : List Node)

mutual

/-- All nodes of a subtree in document (preorder) position, the order in
which BeautifulSoup `find` / `find_all` visit tags. -/
def allNodes : Node → List Node
  | Node.text s => [Node.text s]
  | Node.elem t a cs => Node.elem t a cs :: allNodesL cs

/-- Preorder node list of a forest. -/
def allNodesL : List Node → List Node
  | [] => []
  | c :: cs => allNodes c ++ allNodesL cs

end

/-- Proper descendants of a node, the search space of `tag.find(...)` and
`tag.find_all(...)` on an element handle. -/
def descendants : Node → List Node
  | Node.text _ => []
  | Node.elem _ _ cs => allNodesL cs

mutual

/-- Navigable strings of a subtree in document order. -/
def textNodes : Node → List String
  | Node.text s => [s]
  | Node.elem _ _ cs => textNodesL cs

/-- Navigable strings of a forest. -/
def textNodesL : List Node → List String
  | [] => []
  | c :: cs => textNodes c ++ textNodesL cs

end

/-- BeautifulSoup `get_text()` (separator `''`): concatenation of the raw
navigable strings of the subtree. -/
def getTextRaw (n : Node) : String :=
  String.join (textNodes n)

/-- BeautifulSoup `get_text(strip=True)`: each navigable string stripped,
then concatenated (the default separator is empty, so dropping
whitespace-only strings changes nothing). -/
def getTextStrip (n : Node) : String :=
  String.join ((textNodes n).map pyStrip)

/-- Tag name of a node (`''` for a navigable string, which never equals a
searched tag name). -/
def nodeTag : Node → String
  | Node.text _ => ""
  | Node.elem t _ _ => t

/-- Attribute lookup on a node, `none` when absent or on a string. -/
def nodeAttr (n : Node) (k : String) : Option String :=
  match n with
  | Node.text _ => none
  | Node.elem _ attrs _ =>
    match attrs.find? (fun p => p.1 = k) with
    | some p => some p.2
    | none => none

/-- Python `str.split()` (split on whitespace runs, no empty parts), with
fuel; used for the multi-valued `class` attribute. -/
def splitWsAux : Nat → List Char → List (List Char)
  | 0, _ => []
  | fuel + 1, l =>
    match l.dropWhile isPySpace with
    | [] => []
    | c :: t => (c :: t).takeWhile (fun d => !isPySpace d) ::
        splitWsAux fuel ((c :: t).dropWhile (fun d => !isPySpace d))

/-- CSS classes of a node: the `class` attribute split on whitespace, the
multi-valued view BeautifulSoup uses for `class_=` matching. -/
def classes (n : Node) : List String :=
  match nodeAttr n "class" with
  | some v => (splitWsAux v.data.length v.data).map List.asString
  | none => []

/-- BeautifulSoup `.string`: the single navigable-string child, descending
through a single-element chain, `none` as soon as a tag has zero or more
than one child. -/
def nodeString : Node → Option String
  | Node.text s => some s
  | Node.elem _ _ [c] => nodeString c
  | Node.elem _ _ _ => none

/-- Matcher of `soup.find('meta', attrs={'name': 'dc.Title'})`. -/
def isTitleMeta (n : Node) : Bool :=
  nodeTag n = "meta" && nodeAttr n "name" = some "dc.Title"

/-- Matcher of `soup.find_all('div', id=lambda x: x and x.startswith('corresp1-'))`:
the lambda gets `None` (falsy) when the attribute is missing, and an empty
id is falsy as well, covered by the prefix test failing on `[]`. -/
def isCorrespDiv (n : Node) : Bool :=
  nodeTag n = "div" &&
    match nodeAttr n "id" with
    | some v => List.isPrefixOf "corresp1-".data v.data
    | none => false

/-- Matcher of `soup.find('div', class_='core-history')`. -/
def isCoreHistoryDiv (n : Node) : Bool :=
  nodeTag n = "div" && (classes n).contains "core-history"

/-- Matcher of `div.find('b', class_='core-label')`. -/
def isCoreLabelB (n : Node) : Bool :=
  nodeTag n = "b" && (classes n).contains "core-label"

/-- Test of the loop body guard
`label and 'Article first published online' in label.get_text()` for one
candidate child div. -/
def labelMatches (d : Node) : Bool :=
  match (descendants d).find? isCoreLabelB with
  | some lb => containsSub "Article first published online".data (getTextRaw lb).data
  | none => false

/-- Title extraction of the staging variant (`extract_title_from_html`):
the first `dc.Title` meta's `content` attribute, guarded by
`'content' in meta_tag.attrs`. -/
def extract_title_from_html (doc : Node) : Option String :=
  match (allNodes doc).find? isTitleMeta with
  | some m => nodeAttr m "content"
  | none => none

/-- Title block of `extract_data_from_html` (in-memory variant). -/
def extract_title_v2 (doc : Node) : Option String :=
  match (allNodes doc).find? isTitleMeta with
  | some m => nodeAttr m "content"
  | none => none

/-- Authors extraction of the staging variant
(`extract_authors_from_html`): each matched div's stripped text is cleaned
by the three substitutions separately, and the cleaned pieces are joined
with one space; `None` when no div matched. -/
def extract_authors_from_html (doc : Node) : Option String :=
  let cleaned := (((allNodes doc).filter isCorrespDiv).map getTextStrip).map cleanAuthors
  if cleaned.isEmpty then none else some (String.intercalate " " cleaned)

/-- Authors extraction of the in-memory variant (the authors block of
`extract_data_from_html`): the matched divs' stripped texts are joined
with one space first, and the three substitutions run over the joined
string. -/
def extract_authors_v2 (doc : Node) : Option String :=
  let texts := ((allNodes doc).filter isCorrespDiv).map getTextStrip
  if texts.isEmpty then none else some (cleanAuthors (String.intercalate " " texts))

/-- Loop of `extract_publication_date_from_html` (staging variant) over the
container's descendant divs: the first div whose label matches returns
`div.get_text(strip=True).split(':', 1)[1].strip()` — an `IndexError` when
that text has no colon. -/
def pubDateLoop : List Node → Except String (Option String)
  | [] => Except.ok none
  | d :: ds =>
    if labelMatches d then
      match splitColonTail (getTextStrip d).data with
      | some rest => Except.ok (some (pyStripL rest).asString)
      | none => Except.error "IndexError"
    else pubDateLoop ds

/-- Publication-date extraction of the staging variant
(`extract_publication_date_from_html`). -/
def extract_publication_date_from_html (doc : Node) : Except String (Option String) :=
  match (allNodes doc).find? isCoreHistoryDiv with
  | some ch => pubDateLoop ((descendants ch).filter (fun n => nodeTag n = "div"))
  | none => Except.ok none

/-- Loop of the publication-date block of `extract_data_from_html`
(in-memory variant): no early return, every matching div overwrites
`publication_date`, and each matching div's colon split is evaluated, so
the first colon-free matching div raises even if a later div would match. -/
def pubDateLoopV2 (cur : Option String) : List Node → Except String (Option String)
  | [] => Except.ok cur
  | d :: ds =>
    if labelMatches d then
      match splitColonTail (getTextStrip d).data with
      | some rest => pubDateLoopV2 (some (pyStripL rest).asString) ds
      | none => Except.error "IndexError"
    else pubDateLoopV2 cur ds

/-- Publication-date extraction of the in-memory variant. -/
def extract_publication_date_v2 (doc : Node) : Except String (Option String) :=
  match (allNodes doc).find? isCoreHistoryDiv with
  | some ch => pubDateLoopV2 none ((descendants ch).filter (fun n => nodeTag n = "div"))
  | none => Except.ok none

/-- Loop of `extract_doi_from_html` (staging variant): the first script
whose string holds the marker and whose regex search succeeds returns its
capture; a marker script without a regex match falls through. -/
def doiLoop : List Node → Option String
  | [] => none
  | s :: ss =>
    match nodeString s with
    | some str =>
      if containsSub adMarker str.data then
        match doiSearch str.data with
        | some g => some g.asString
        | none => doiLoop ss
      else doiLoop ss
    | none => doiLoop ss

/-- DOI extraction of the staging variant (`extract_doi_from_html`). -/
def extract_doi_from_html (doc : Node) : Option String :=
  doiLoop ((allNodes doc).filter (fun n => nodeTag n = "script"))

/-- Loop of the DOI block of `extract_data_from_html` (in-memory variant):
no early return, so the last matching script wins. -/
def doiLoopV2 (cur : Option String) : List Node → Option String
  | [] => cur
  | s :: ss =>
    match nodeString s with
    | some str =>
      if containsSub adMarker str.data then
        match doiSearch str.data with
        | some g => doiLoopV2 (some g.asString) ss
        | none => doiLoopV2 cur ss
      else doiLoopV2 cur ss
    | none => doiLoopV2 cur ss

/-- DOI extraction of the in-memory variant. -/
def extract_doi_v2 (doc : Node) : Option String :=
  doiLoopV2 none ((allNodes doc).filter (fun n => nodeTag n = "script"))

/-- Abstract extraction of the staging variant
(`extract_abstract_from_html`). -/
def extract_abstract_from_html (doc : Node) : Option String :=
  match (allNodes doc).find? (fun n => nodeTag n = "section" && nodeAttr n "id" = some "abstract") with
  | some sec =>
    match (descendants sec).find? (fun n => nodeTag n = "div" && nodeAttr n "role" = some "paragraph") with
    | some d => some (getTextStrip d)
    | none => none
  | none => none

/-- Abstract block of `extract_data_from_html` (in-memory variant). -/
def extract_abstract_v2 (doc : Node) : Option String :=
  match (allNodes doc).find? (fun n => nodeTag n = "section" && nodeAttr n "id" = some "abstract") with
  | some sec =>
    match (descendants sec).find? (fun n => nodeTag n = "div" && nodeAttr n "role" = some "paragraph") with
    | some d => some (getTextStrip d)
    | none => none
  | none => none

/-- Record of the five extracted fields, the dict both variants build. -/
structure ArticleRecord where
  title : Option String
  authors : Option String
  publication_date : Option String
  doi : Option String
  abstract : Option String
deriving DecidableEq

/-- Record assembly of the staging variant's second pass: the five
extractors run on one parsed file in source order; only the
publication-date call can raise, aborting the iteration. -/
def extractRecordStaging (doc : Node) : Except String ArticleRecord :=
  match extract_publication_date_from_html doc with
  | Except.error e => Except.error e
  | Except.ok pd =>
    Except.ok
      { title := extract_title_from_html doc
        authors := extract_authors_from_html doc
        publication_date := pd
        doi := extract_doi_from_html doc
        abstract := extract_abstract_from_html doc }

/-- Record assembly of the in-memory variant, `extract_data_from_html`. -/
def extract_data_from_html (doc : Node) : Except String ArticleRecord :=
  match extract_publication_date_v2 doc with
  | Except.error e => Except.error e
  | Except.ok pd =>
    Except.ok
      { title := extract_title_v2 doc
        authors := extract_authors_v2 doc
        publication_date := pd
        doi := extract_doi_v2 doc
        abstract := extract_abstract_v2 doc }

/-- Python truthiness test `if title:` / `if article_data['Title']:` that
guards appending a record: `None` and the empty string are falsy. -/
def isRetained (r : ArticleRecord) : Bool :=
  match r.title with
  | some t => !t.isEmpty
  | none => false

/-- Base URL constant `base_url` of all three files. -/
def base_url : String := "https://journals.sagepub.com"

/-- Link Collector, `extract_links`: hrefs of the anchors matched by the
CSS selector `a[href^="/doi/abs/"]`, in document order, duplicates kept. -/
def extract_links (listing : Node) : List String :=
  (allNodes listing).filterMap (fun n =>
    if nodeTag n = "a" then
      match nodeAttr n "href" with
      | some h => if List.isPrefixOf "/doi/abs/".data h.data then some h else none
      | none => none
    else none)

/-- Fetch-and-extract loop of the in-memory variant's `main` over the
discovered hrefs: each page is fetched (oracle `fetch`, already parsed),
extracted, and appended when its title is truthy; an extraction error
aborts the run at that page. -/
def main2Loop (fetch : String → Node) : List String → Except String (List ArticleRecord)
  | [] => Except.ok []
  | h :: hs =>
    match extract_data_from_html (fetch (base_url ++ h)) with
    | Except.error e => Except.error e
    | Except.ok r =>
      match main2Loop fetch hs with
      | Except.error e => Except.error e
      | Except.ok rest => Except.ok (if isRetained r then r :: rest else rest)

/-- Working directory contents: filename-keyed parsed HTML documents. -/
abbrev FS : Type := List (String × Node)

/-- Lookup of a file's content. -/
def fsLookup (fs : FS) (n : String) : Option Node :=
  match fs.find? (fun p => p.1 = n) with
  | some p => some p.2
  | none => none

/-- Write (create or truncate) of `open(filename, 'w')` + `write`. -/
def fsWrite (fs : FS) (n : String) (c : Node) : FS :=
  fs.filter (fun p => !(p.1 = n : Bool)) ++ [(n, c)]

/-- Deletion of `os.remove`. -/
def fsErase (fs : FS) (n : String) : FS :=
  fs.filter (fun p => !(p.1 = n : Bool))

/-- Filenames of a directory state. -/
def fsKeys (fs : FS) : List String :=
  fs.map (fun p => p.1)

/-- Staged filename `f'page_{i}.html'` of the 1-based loop index. -/
def stagedName (i : Nat) : String :=
  "page_" ++ toString i ++ ".html"

/-- First pass of the staging variant's `main`: each discovered href is
fetched and its page written to `page_{i}.html`, `i` counting from 1. -/
def firstPassAux (fetch : String → Node) : Nat → List String → FS → FS
  | _, [], fs => fs
  | i, h :: hs, fs => firstPassAux fetch (i + 1) hs (fsWrite fs (stagedName i) (fetch (base_url ++ h)))

/-- First pass started at index 1 (`enumerate(hrefs, start=1)`). -/
def firstPass (fetch : String → Node) (hrefs : List String) (fs : FS) : FS :=
  firstPassAux fetch 1 hrefs fs

/-- Second pass of the staging variant's `main`: `os.listdir` is the
`names` snapshot (its order is decided by the file system, not by the
code); every `.html` entry is opened (a missing file raises), extracted,
appended if its title is truthy, and deleted unconditionally. -/
def secondPass : List String → FS → Except String (List ArticleRecord × FS)
  | [], fs => Except.ok ([], fs)
  | n :: ns, fs =>
    if endsWithHtml n then
      match fsLookup fs n with
      | none => Except.error "FileNotFoundError"
      | some doc =>
        match extractRecordStaging doc with
        | Except.error e => Except.error e
        | Except.ok r =>
          match secondPass ns (fsErase fs n) with
          | Except.error e => Except.error e
          | Except.ok (recs, fs2) =>
            Except.ok ((if isRetained r then r :: recs else recs), fs2)
    else secondPass ns fs

/-- Whole staging run after link discovery: stage every page, then run the
second pass over the directory snapshot `names`. -/
def main_staging (fetch : String → Node) (hrefs : List String) (fs0 : FS)
    (names : List String) : Except String (List ArticleRecord × FS) :=
  secondPass names (firstPass fetch hrefs fs0)

/-- Column headers of the exported table, the shared dict keys. -/
def csvColumns : List String :=
  ["Title", "Authors With Their Affliations", "Publication_date", "DOI", "Abstract"]

/-- CSV cell for one optional field: `None` becomes the empty cell, and a
value containing a delimiter, quote or line break is quoted with doubled
quotes (pandas' minimal quoting). -/
def csvCell : Option String → String
  | none => ""
  | some s =>
    if s.data.any (fun c => c = ',' || c = '"' || c = '\n' || c = '\r') then
      "\"" ++ (s.data.flatMap (fun c => if c = '"' then ['"', '"'] else [c])).asString ++ "\""
    else s

/-- CSV row of one record in the fixed column order. -/
def csvRow (r : ArticleRecord) : String :=
  String.intercalate ","
    [csvCell r.title, csvCell r.authors, csvCell r.publication_date, csvCell r.doi, csvCell r.abstract]

/-- Serialization of `pd.DataFrame(data).to_csv(index=False)`: the frame's
columns come from the record dicts' keys, so with zero records the frame
has no columns at all and the header row is empty — the file is a single
newline, with no column names. -/
def to_csv (data : List ArticleRecord) : String :=
  match data with
  | [] => "\n"
  | _ => String.intercalate "," csvColumns ++ "\n" ++ String.join (data.map (fun r => csvRow r ++ "\n"))

/-- In-memory variant end to end from a parsed listing page to the CSV
text. -/
def main2Full (listing : Node) (fetch : String → Node) : Except String String :=
  (main2Loop fetch (extract_links listing)).map to_csv

/-- Staging variant end to end from a parsed listing page to the CSV
text. -/
def mainStagingCsv (listing : Node) (fetch : String → Node) (fs0 : FS)
    (names : List String) : Except String String :=
  (main_staging fetch (extract_links listing) fs0 names).map (fun p => to_csv p.1)

/-- Retained-record view of one page's extraction result, used to state
that the in-memory loop keeps records in link-discovery order. -/
def retainedOf : Except String ArticleRecord → Option ArticleRecord
  | Except.ok r => if isRetained r then some r else none
  | Except.error _ => none

/-- Success test for an `Except`-valued extraction. -/
def isOkE {α : Type} : Except String α → Bool
  | Except.ok _ => true
  | Except.error _ => false

/-- Page whose `core-history` block carries the marker label but whose
visible text has no colon: the markup shape that makes
`split(':', 1)[1]` raise. -/
def docNoColon : Node :=
  Node.elem "html" [] [
    Node.elem "body" [] [
      Node.elem "div" [("class", "core-history")] [
        Node.elem "div" [] [
          Node.elem "b" [("class", "core-label")] [Node.text "Article first published online"]]]]]

/-- Page with a well-formed `core-history` block. -/
def docGoodDate : Node :=
  Node.elem "html" [] [
    Node.elem "body" [] [
      Node.elem "div" [("class", "core-history")] [
        Node.elem "div" [] [
          Node.elem "b" [("class", "core-label")] [Node.text "Article first published online:"],
          Node.text " May 4, 2023"]]]]

/-- Page with two author blocks whose texts are `a` and `(b`: an opening
parenthesis at the start of the second block sits right after the joining
space once the texts are joined, so the two variants clean differently. -/
def docTwoAuthors : Node :=
  Node.elem "html" [] [
    Node.elem "body" [] [
      Node.elem "div" [("id", "corresp1-a")] [Node.text "a"],
      Node.elem "div" [("id", "corresp1-b")] [Node.text "(b"]]]

/-- Listing page with anchors, none of whose hrefs starts with
`/doi/abs/`. -/
def docListingNoMatch : Node :=
  Node.elem "html" [] [
    Node.elem "body" [] [
      Node.elem "a" [("href", "/doi/full/10.1177/x")] [Node.text "full text"],
      Node.elem "a" [("href", "mailto:editor@example.org")] [Node.text "contact"]]]

/-- Minimal article page whose title metadata carries the given content. -/
def docTitled (t : String) : Node :=
  Node.elem "html" [] [
    Node.elem "head" [] [
      Node.elem "meta" [("name", "dc.Title"), ("content", t)] []],
    Node.elem "body" [] []]

/-- Article page without any `dc.Title` metadata tag. -/
def docNoTitle : Node :=
  Node.elem "html" [] [
    Node.elem "head" [] [
      Node.elem "meta" [("name", "dc.Creator"), ("content", "Someone")] []],
    Node.elem "body" [] [Node.text "body text"]]

/-- Page whose single script block holds the ad-parameters object of the
DOI test case. -/
def docDoiScript : Node :=
  Node.elem "html" [] [
    Node.elem "head" [] [
      Node.elem "script" [] [
        Node.text "var journalAdParams = \x7bdoi: '10.1177/0025149241234567', other: 1\x7d;"]],
    Node.elem "body" [] []]

/-- Fetch oracle of the order counterexample: the two staged article pages
carry titles `A` and `B`. -/
def fetchAB (u : String) : Node :=
  if u = base_url ++ "/doi/abs/a" then docTitled "A" else docTitled "B"

/-- Directory snapshot listing the second staged file first — a legitimate
`os.listdir` result, whose order the file system chooses. -/
def namesSwapped : List String := ["page_2.html", "page_1.html"]

/-- Occurrence of the token `email:` followed by a non-whitespace
character, right at the head of the suffix. -/
def emailAt (cs : List Char) : Bool :=
  emailLit.isPrefixOf cs &&
    match cs.drop 6 with
    | c :: _ => !isPySpace c
    | [] => false

/-- Occurrence of the token `email:` followed by a non-whitespace
character anywhere in the string — exactly when `\s*email:[^\s]+` has a
match. -/
def hasEmailOcc : List Char → Bool
  | [] => false
  | c :: t => emailAt (c :: t) || hasEmailOcc t

/-- Guard of the amended totality claim: every div of the (first)
`core-history` container whose label matches carries a colon in its
visible text, vacuously true without a container. -/
def colonGuard (doc : Node) : Bool :=
  match (allNodes doc).find? isCoreHistoryDiv with
  | some ch => ((descendants ch).filter (fun n => nodeTag n = "div")).all
      (fun d => !labelMatches d || (splitColonTail (getTextStrip d).data).isSome)
  | none => true

/-- Record extracted from `docTitled "A"`. -/
def recA : ArticleRecord := ⟨some "A", none, none, none, none⟩

/-- Record extracted from `docTitled "B"`. -/
def recB : ArticleRecord := ⟨some "B", none, none, none, none⟩

/-- Record extracted from `docTitled "T"`. -/
def recT : ArticleRecord := ⟨some "T", none, none, none, none⟩

/-- Record extracted from `docTitled "P"`. -/
def recP : ArticleRecord := ⟨some "P", none, none, none, none⟩

/-- Helper: an `email:`-plus-non-space occurrence at the head of a suffix
is an occurrence in the whole string. -/
theorem hasEmailOcc_of_suffix {t l : List Char} (hs : t <:+ l) (he : emailAt t = true) :
    hasEmailOcc l = true := by
  induction l with
  | nil =>
    rcases List.suffix_nil.mp hs with rfl
    simp [emailAt, emailLit, List.isPrefixOf] at he
  | cons c cs ih =>
    rcases List.suffix_cons_iff.mp hs with h | h
    · subst h
      simp [hasEmailOcc, he]
    · simp [hasEmailOcc, ih h]

/-- Helper: without an occurrence, the email pattern has no match at the
head position. -/
theorem tryEmail_eq_none {l : List Char} (h : hasEmailOcc l = false) : tryEmail l = none := by
  unfold tryEmail
  set rest := l.dropWhile isPySpace with hrest
  by_cases hp : emailLit.isPrefixOf rest
  · simp only [hp, if_true]
    match hd : rest.drop 6 with
    | [] => rfl
    | c :: t =>
      by_cases hsp : isPySpace c
      · simp [hsp]
      · exfalso
        have hAt : emailAt rest = true := by
          unfold emailAt
          rw [hd]
          simp [hp, hsp]
        have := hasEmailOcc_of_suffix (hrest ▸ List.dropWhile_suffix isPySpace) hAt
        rw [h] at this
        exact Bool.false_ne_true this
  · simp [hp]

/-- Helper: the email substitution is the identity on occurrence-free
strings. -/
theorem pySubAux_email_id : ∀ (fuel : Nat) (l : List Char), hasEmailOcc l = false →
    pySubAux tryEmail fuel l = l := by
  intro fuel
  induction fuel with
  | zero => intro l _; rfl
  | succ n ih =>
    intro l h
    match l with
    | [] => rfl
    | c :: cs =>
      have hocc : hasEmailOcc cs = false := by
        have := h
        unfold hasEmailOcc at this
        exact (Bool.or_eq_false_iff.mp this).2
      simp only [pySubAux, tryEmail_eq_none h]
      rw [ih cs hocc]

/-- Helper: without an opening parenthesis, `\s*\(` has no match at the
head position. -/
theorem tryOpen_eq_none {l : List Char} (h : '(' ∉ l) : tryOpen l = none := by
  unfold tryOpen
  match hd : l.dropWhile isPySpace with
  | [] => rfl
  | c :: rest =>
    have hc : c ∈ l := by
      have hmem : c ∈ l.dropWhile isPySpace := by rw [hd]; exact List.mem_cons_self c rest
      exact (List.dropWhile_suffix isPySpace).mem hmem
    have : ¬ (c = '(') := fun hcc => h (hcc ▸ hc)
    simp [this]

/-- Helper: the opening-parenthesis substitution is the identity on
parenthesis-free strings. -/
theorem pySubAux_open_id : ∀ (fuel : Nat) (l : List Char), '(' ∉ l →
    pySubAux tryOpen fuel l = l := by
  intro fuel
  induction fuel with
  | zero => intro l _; rfl
  | succ n ih =>
    intro l h
    match l with
    | [] => rfl
    | c :: cs =>
      have hcs : '(' ∉ cs := fun hm => h (List.mem_cons_of_mem c hm)
      simp only [pySubAux, tryOpen_eq_none h]
      rw [ih cs hcs]

/-- Helper: without a closing parenthesis, `\)\s*` has no match at the
head position. -/
theorem tryClose_eq_none {l : List Char} (h : ')' ∉ l) : tryClose l = none := by
  match l with
  | [] => rfl
  | c :: rest =>
    have : ¬ (c = ')') := fun hcc => h (hcc ▸ List.mem_cons_self c rest)
    simp [tryClose, this]

/-- Helper: the closing-parenthesis substitution is the identity on
parenthesis-free strings. -/
theorem pySubAux_close_id : ∀ (fuel : Nat) (l : List Char), ')' ∉ l →
    pySubAux tryClose fuel l = l := by
  intro fuel
  induction fuel with
  | zero => intro l _; rfl
  | succ n ih =>
    intro l h
    match l with
    | [] => rfl
    | c :: cs =>
      have hcs : ')' ∉ cs := fun hm => h (List.mem_cons_of_mem c hm)
      simp only [pySubAux, tryClose_eq_none h]
      rw [ih cs hcs]


/-- Helper: after `os.remove(n)` the file `n` is gone. -/
theorem fsLookup_erase_self (fs : FS) (n : String) : fsLookup (fsErase fs n) n = none := by
  have hfind : (fsErase fs n).find? (fun p => (p.1 = n : Bool)) = none := by
    rw [List.find?_eq_none]
    intro x hx
    have := List.of_mem_filter hx
    simp_all
  unfold fsLookup
  rw [hfind]

/-- Helper: erasing one key leaves `find?` for another key unchanged. -/
theorem find?_filter_keyne {fs : FS} {m n : String} (h : m ≠ n) :
    (fs.filter (fun p => !(p.1 = m : Bool))).find? (fun p => (p.1 = n : Bool)) =
      fs.find? (fun p => (p.1 = n : Bool)) := by
  induction fs with
  | nil => rfl
  | cons p fs ih =>
    by_cases hm : p.1 = m
    · have hn : ¬ (p.1 = n) := by rw [hm]; exact h
      simp [List.filter_cons, List.find?_cons, hm, hn, ih, h]
    · by_cases hn : p.1 = n
      · simp [List.filter_cons, List.find?_cons, hm, hn, Ne.symm h]
      · simp [List.filter_cons, List.find?_cons, hm, hn, ih]

/-- Helper: `os.remove(m)` does not affect the content of another file. -/
theorem fsLookup_erase_ne (fs : FS) (m n : String) (h : m ≠ n) :
    fsLookup (fsErase fs m) n = fsLookup fs n := by
  unfold fsLookup fsErase
  rw [find?_filter_keyne h]

/-- Helper: a readable file is listed in the directory. -/
theorem fsLookup_mem_keys {fs : FS} {n : String} {c : Node} (h : fsLookup fs n = some c) :
    n ∈ fsKeys fs := by
  unfold fsLookup at h
  match hf : List.find? (fun p => (p.1 = n : Bool)) fs with
  | none => rw [hf] at h; exact absurd h (by simp)
  | some p =>
    have hpm : p ∈ fs := List.mem_of_find?_eq_some hf
    have hpe : p.1 = n := by simpa using List.find?_some hf
    exact hpe ▸ List.mem_map_of_mem (fun q : String × Node => q.1) hpm



/-- Helper: the second pass only deletes files, so any file present after
a successful pass was present before. -/
theorem secondPass_lookup_mono : ∀ (names : List String) (fs : FS)
    (out : List ArticleRecord × FS) (n : String) (c : Node),
    secondPass names fs = Except.ok out → fsLookup out.2 n = some c →
    fsLookup fs n = some c := by
  intro names
  induction names with
  | nil =>
    intro fs out n c hok hl
    simp only [secondPass, Except.ok.injEq] at hok
    rw [← hok] at hl
    exact hl
  | cons m ns ih =>
    intro fs out n c hok hl
    by_cases hg : endsWithHtml m = true
    · match hf : fsLookup fs m with
      | none => simp [secondPass, hg, hf] at hok
      | some doc =>
        match he : extractRecordStaging doc with
        | Except.error e => simp [secondPass, hg, hf, he] at hok
        | Except.ok r =>
          match hs : secondPass ns (fsErase fs m) with
          | Except.error e => simp [secondPass, hg, hf, he, hs] at hok
          | Except.ok pr =>
            have hout2 : out.2 = pr.2 := by
              cases pr with
              | mk recs fs2 => simp [secondPass, hg, hf, he, hs] at hok; rw [← hok]
            have hpr : fsLookup (fsErase fs m) n = some c :=
              ih (fsErase fs m) pr n c hs (hout2 ▸ hl)
            by_cases hmn : m = n
            · subst hmn
              rw [fsLookup_erase_self] at hpr
              exact absurd hpr (by simp)
            · rw [fsLookup_erase_ne fs m n hmn] at hpr
              exact hpr
    · simp only [secondPass, hg, if_false] at hok
      exact ih fs out n c hok hl

/-- Helper: a successful second pass deletes every listed `.html` file. -/
theorem secondPass_html_deleted : ∀ (names : List String) (fs : FS)
    (out : List ArticleRecord × FS) (n : String),
    secondPass names fs = Except.ok out → n ∈ names → endsWithHtml n = true →
    fsLookup out.2 n = none := by
  intro names
  induction names with
  | nil => intro fs out n _ hn; exact absurd hn (List.not_mem_nil n)
  | cons m ns ih =>
    intro fs out n hok hn hh
    by_cases hg : endsWithHtml m = true
    · match hf : fsLookup fs m with
      | none => simp [secondPass, hg, hf] at hok
      | some doc =>
        match he : extractRecordStaging doc with
        | Except.error e => simp [secondPass, hg, hf, he] at hok
        | Except.ok r =>
          match hs : secondPass ns (fsErase fs m) with
          | Except.error e => simp [secondPass, hg, hf, he, hs] at hok
          | Except.ok pr =>
            have hout2 : out.2 = pr.2 := by
              cases pr with
              | mk recs fs2 => simp [secondPass, hg, hf, he, hs] at hok; rw [← hok]
            rw [hout2]
            rcases List.mem_cons.mp hn with rfl | hmem
            · match hc : fsLookup pr.2 n with
              | none => rfl
              | some c =>
                have := secondPass_lookup_mono ns (fsErase fs n) pr n c hs hc
                rw [fsLookup_erase_self] at this
                exact absurd this (by simp)
            · exact ih (fsErase fs m) pr n hs hmem hh
    · simp only [secondPass, hg, if_false] at hok
      rcases List.mem_cons.mp hn with rfl | hmem
      · exact absurd hh (by simp [hg])
      · exact ih fs out n hok hmem hh



/-- Helper: the publication-date loop succeeds when every matching div's
text carries a colon. -/
theorem pubDateLoop_ok (ds : List Node)
    (h : ∀ d ∈ ds, labelMatches d = true → (splitColonTail (getTextStrip d).data).isSome = true) :
    isOkE (pubDateLoop ds) = true := by
  induction ds with
  | nil => rfl
  | cons d ds ih =>
    by_cases hl : labelMatches d = true
    · have hsome := h d (List.mem_cons_self d ds) hl
      match hc : splitColonTail (getTextStrip d).data with
      | some rest => simp [pubDateLoop, hl, hc, isOkE]
      | none => rw [hc] at hsome; exact absurd hsome (by simp)
    · simp only [pubDateLoop, hl, if_false]
      exact ih (fun d hd hld => h d (List.mem_cons_of_mem _ hd) hld)

/-- Helper: every record a successful second pass emits has a non-empty
title — the `if title:` guard. -/
theorem secondPass_titles : ∀ (names : List String) (fs : FS) (out : List ArticleRecord × FS),
    secondPass names fs = Except.ok out → ∀ r ∈ out.1, ∃ t, r.title = some t ∧ t ≠ "" := by
  intro names
  induction names with
  | nil =>
    intro fs out hok r hr
    simp only [secondPass, Except.ok.injEq] at hok
    rw [← hok] at hr
    exact absurd hr (List.not_mem_nil r)
  | cons m ns ih =>
    intro fs out hok r hr
    by_cases hg : endsWithHtml m = true
    · match hf : fsLookup fs m with
      | none => simp [secondPass, hg, hf] at hok
      | some doc =>
        match he : extractRecordStaging doc with
        | Except.error e => simp [secondPass, hg, hf, he] at hok
        | Except.ok r0 =>
          match hs : secondPass ns (fsErase fs m) with
          | Except.error e => simp [secondPass, hg, hf, he, hs] at hok
          | Except.ok pr =>
            cases pr with
            | mk recs fs2 =>
              simp only [secondPass, hg, if_true, hf, he, hs, Except.ok.injEq] at hok
              rw [← hok] at hr
              dsimp at hr
              have hrecs : r ∈ recs → ∃ t, r.title = some t ∧ t ≠ "" := fun hm =>
                ih (fsErase fs m) (recs, fs2) hs r hm
              by_cases hret : isRetained r0 = true
              · rw [if_pos hret] at hr
                rcases List.mem_cons.mp hr with rfl | hm
                · unfold isRetained at hret
                  match ht : r.title with
                  | none => rw [ht] at hret; exact absurd hret (by simp)
                  | some t =>
                    rw [ht] at hret
                    refine ⟨t, rfl, fun hte => ?_⟩
                    rw [hte] at hret
                    simp [String.isEmpty] at hret
                · exact hrecs hm
              · rw [if_neg hret] at hr
                exact hrecs hr
    · simp only [secondPass, hg, if_false] at hok
      exact ih fs out hok r hr

/-- Helper: a listed, readable `.html` file whose record is retained
contributes that record to the output of a successful second pass. -/
theorem secondPass_record_mem : ∀ (names : List String) (fs : FS)
    (out : List ArticleRecord × FS) (n : String) (doc : Node) (r : ArticleRecord),
    secondPass names fs = Except.ok out → n ∈ names → endsWithHtml n = true →
    fsLookup fs n = some doc → extractRecordStaging doc = Except.ok r →
    isRetained r = true → r ∈ out.1 := by
  intro names
  induction names with
  | nil => intro fs out n doc r _ hn; exact absurd hn (List.not_mem_nil n)
  | cons m ns ih =>
    intro fs out n doc r hok hn hh hlf he hret
    by_cases hg : endsWithHtml m = true
    · match hf : fsLookup fs m with
      | none => simp [secondPass, hg, hf] at hok
      | some doc0 =>
        match he0 : extractRecordStaging doc0 with
        | Except.error e => simp [secondPass, hg, hf, he0] at hok
        | Except.ok r0 =>
          match hs : secondPass ns (fsErase fs m) with
          | Except.error e => simp [secondPass, hg, hf, he0, hs] at hok
          | Except.ok pr =>
            cases pr with
            | mk recs fs2 =>
              simp only [secondPass, hg, if_true, hf, he0, hs, Except.ok.injEq] at hok
              by_cases hmn : m = n
              · subst hmn
                rw [hf] at hlf
                injection hlf with hdoc
                rw [← hdoc] at he
                rw [he0] at he
                injection he with hr0
                rw [← hok]
                dsimp
                rw [hr0, if_pos hret]
                exact List.mem_cons_self r recs
              · have hn' : n ∈ ns := by
                  rcases List.mem_cons.mp hn with hcon | hmem
                  · exact absurd hcon.symm hmn
                  · exact hmem
                have hlf' : fsLookup (fsErase fs m) n = some doc := by
                  rw [fsLookup_erase_ne fs m n hmn]
                  exact hlf
                have hmem := ih (fsErase fs m) (recs, fs2) n doc r hs hn' hh hlf' he hret
                rw [← hok]
                dsimp
                by_cases hret0 : isRetained r0 = true
                · rw [if_pos hret0]
                  exact List.mem_cons_of_mem r0 hmem
                · rw [if_neg hret0]
                  exact hmem
    · simp only [secondPass, hg, if_false] at hok
      have hn' : n ∈ ns := by
        rcases List.mem_cons.mp hn with hcon | hmem
        · rw [hcon] at hh
          exact absurd hh hg
        · exact hmem
      exact ih fs out n doc r hok hn' hh hlf he hret


/-- C1: the five sub-extractions are not all total — `docNoColon` carries
the marker label but no colon, and publication-date extraction raises
`IndexError` instead of returning null. -/
theorem c1_counterexample :
    extract_publication_date_from_html docNoColon = Except.error "IndexError" := rfl

/-- C1 (amended): title, authors, DOI and abstract extraction always
return a value or null; publication-date extraction does so whenever every
label-matching div of the history container has a colon in its visible
text (in particular when container or label is absent), and raises
`IndexError` otherwise. -/
theorem c1_amended_totality (doc : Node) (h : colonGuard doc = true) :
    isOkE (extract_publication_date_from_html doc) = true := by
  unfold colonGuard at h
  unfold extract_publication_date_from_html
  match hf : (allNodes doc).find? isCoreHistoryDiv with
  | none => rfl
  | some ch =>
    rw [hf] at h
    apply pubDateLoop_ok
    intro d hd hl
    have hall := (List.all_eq_true.mp h) d hd
    simp only [hl, Bool.not_true, Bool.false_or] at hall
    exact hall

/-- C1 witness: a well-formed history block satisfies the guard and the
extraction succeeds. -/
theorem c1_amended_totality_witness :
    colonGuard docGoodDate = true ∧
      isOkE (extract_publication_date_from_html docGoodDate) = true :=
  ⟨rfl, c1_amended_totality docGoodDate rfl⟩

/-- C2: the two variants do not compute the same record on every HTML
text — on `docTwoAuthors` the staging variant cleans each author block
before joining (`"a .b"`) while the in-memory variant joins first
(`"a.b"`). -/
theorem c2_counterexample :
    extract_authors_from_html docTwoAuthors = some "a .b" ∧
      extract_authors_v2 docTwoAuthors = some "a.b" ∧ ("a .b" : String) ≠ "a.b" :=
  ⟨rfl, rfl, by decide⟩

/-- C2 (amended): the two variants agree on the title and abstract
fields for every HTML text; the authors field differs in general (clean
each element then join vs join then clean), and publication date and DOI
keep the first vs the last match. -/
theorem c2_amended_title_abstract_agree (doc : Node) :
    extract_title_from_html doc = extract_title_v2 doc ∧
      extract_abstract_from_html doc = extract_abstract_v2 doc :=
  ⟨rfl, rfl⟩

/-- C3: the claimed output is wrong — `email: jane@x.com` has a space
after the colon, so `\s*email:[^\s]+` (which requires a non-space right
after `email:`) does not match and the email text survives. -/
theorem c3_counterexample :
    cleanAuthors "Jane Doe (email: jane@x.com) Dept of Y" ≠ "Jane Doe. . Dept of Y." := by
  decide

/-- C3 (amended): the three substitutions leave the email text in place
and replace only the two parentheses (absorbing adjacent whitespace). -/
theorem c3_amended_cleaning :
    cleanAuthors "Jane Doe (email: jane@x.com) Dept of Y" =
      "Jane Doe.email: jane@x.com.Dept of Y" := by
  decide

/-- C4: with zero matching anchors the Link Collector returns an empty
sequence and the run succeeds, but the exported file is a single empty
line, not a header row — `pd.DataFrame([])` has no columns. -/
theorem c4_counterexample :
    extract_links docListingNoMatch = [] ∧
      main2Full docListingNoMatch (fun _ => docNoTitle) = Except.ok "\n" ∧
      to_csv [] ≠ String.intercalate "," csvColumns ++ "\n" :=
  ⟨rfl, rfl, by decide⟩

/-- C4 (amended): with zero matching anchors both variants succeed and
export an empty line without column names. -/
theorem c4_amended_empty_run (listing : Node) (fetch : String → Node)
    (h : extract_links listing = []) :
    main2Full listing fetch = Except.ok "\n" ∧
      mainStagingCsv listing fetch [] [] = Except.ok "\n" := by
  constructor
  · unfold main2Full
    rw [h]
    rfl
  · unfold mainStagingCsv main_staging firstPass
    rw [h]
    rfl

/-- C4 witness: the concrete listing with no matching anchors. -/
theorem c4_amended_empty_run_witness :
    main2Full docListingNoMatch (fun _ => docNoTitle) = Except.ok "\n" ∧
      mainStagingCsv docListingNoMatch (fun _ => docNoTitle) [] [] = Except.ok "\n" :=
  c4_amended_empty_run docListingNoMatch (fun _ => docNoTitle) rfl

/-- C5: output order does not always follow link-discovery order — in the
staging variant the second pass follows the `os.listdir` snapshot, and the
legitimate snapshot `namesSwapped` (a permutation of the staged files)
yields the records in reverse discovery order. -/
theorem c5_counterexample :
    main_staging fetchAB ["/doi/abs/a", "/doi/abs/b"] [] namesSwapped =
        Except.ok ([recB, recA], []) ∧
      namesSwapped.Perm (fsKeys (firstPass fetchAB ["/doi/abs/a", "/doi/abs/b"] [])) ∧
      recA.title = some "A" ∧ recB.title = some "B" :=
  ⟨rfl, List.Perm.swap "page_1.html" "page_2.html" [], rfl, rfl⟩

/-- C5 (amended): the in-memory variant does keep link-discovery order:
a successful run returns exactly the retained records of the discovered
links, in order; the staging variant instead follows directory-listing
order. -/
theorem c5_amended_inmemory_order : ∀ (hrefs : List String) (fetch : String → Node)
    (out : List ArticleRecord),
    main2Loop fetch hrefs = Except.ok out →
    out = hrefs.filterMap
      (fun href => retainedOf (extract_data_from_html (fetch (base_url ++ href)))) := by
  intro hrefs
  induction hrefs with
  | nil =>
    intro fetch out hok
    simp only [main2Loop, Except.ok.injEq] at hok
    rw [← hok]
    rfl
  | cons h hs ih =>
    intro fetch out hok
    match he : extract_data_from_html (fetch (base_url ++ h)) with
    | Except.error e => simp [main2Loop, he] at hok
    | Except.ok r =>
      match hm : main2Loop fetch hs with
      | Except.error e => simp [main2Loop, he, hm] at hok
      | Except.ok rest =>
        simp only [main2Loop, he, hm, Except.ok.injEq] at hok
        rw [← hok, List.filterMap_cons, ← ih fetch rest hm]
        by_cases hret : isRetained r = true
        · simp [retainedOf, he, hret]
        · simp [retainedOf, he, hret]

/-- C5 witness: one discovered link with a titled page. -/
theorem c5_amended_inmemory_order_witness :
    [recT] = (["/doi/abs/a"].filterMap
      (fun href => retainedOf (extract_data_from_html
        ((fun _ => docTitled "T") (base_url ++ href))))) :=
  c5_amended_inmemory_order ["/doi/abs/a"] (fun _ => docTitled "T") [recT] rfl

/-- C6: a page without a `dc.Title` meta extracts a null title, and every
record a successful staging run emits has a non-empty title, so such a
page is never appended. -/
theorem c6_no_title_excluded :
    (∀ doc : Node, (∀ n ∈ allNodes doc, isTitleMeta n = false) →
        extract_title_from_html doc = none) ∧
      ∀ (names : List String) (fs : FS) (out : List ArticleRecord × FS),
        secondPass names fs = Except.ok out →
        ∀ r ∈ out.1, ∃ t, r.title = some t ∧ t ≠ "" := by
  constructor
  · intro doc h
    unfold extract_title_from_html
    have hf : (allNodes doc).find? isTitleMeta = none := by
      rw [List.find?_eq_none]
      intro x hx
      simp [h x hx]
    rw [hf]
  · exact secondPass_titles

/-- C6 witness: the title-free page extracts no title, and a run over one
titled page emits only non-empty-titled records. -/
theorem c6_no_title_excluded_witness :
    extract_title_from_html docNoTitle = none ∧
      ∀ r ∈ (([recP], ([] : FS)) : List ArticleRecord × FS).1,
        ∃ t, r.title = some t ∧ t ≠ "" :=
  ⟨c6_no_title_excluded.1 docNoTitle (by decide),
    c6_no_title_excluded.2 ["pre.html"] [("pre.html", docTitled "P")] ([recP], []) rfl⟩

/-- C7: the DOI sub-extraction returns exactly the single-quoted value of
the `journalAdParams` script block, in both variants. -/
theorem c7_doi_extraction :
    extract_doi_from_html docDoiScript = some "10.1177/0025149241234567" ∧
      extract_doi_v2 docDoiScript = some "10.1177/0025149241234567" :=
  ⟨rfl, rfl⟩

/-- C8: the three-substitution cleaning is the identity on any string with
no `email:`-plus-non-whitespace occurrence and no parentheses (hence
idempotent on its own range). -/
theorem c8_clean_identity (s : String) (h1 : hasEmailOcc s.data = false)
    (h2 : '(' ∉ s.data) (h3 : ')' ∉ s.data) : cleanAuthors s = s := by
  unfold cleanAuthors pySub
  rw [pySubAux_email_id _ _ h1, pySubAux_open_id _ _ h2, pySubAux_close_id _ _ h3]
  rfl

/-- C8 witness: an already-clean authors string is returned unchanged. -/
theorem c8_clean_identity_witness :
    hasEmailOcc "John Smith. Dept.".data = false ∧ '(' ∉ "John Smith. Dept.".data ∧
      ')' ∉ "John Smith. Dept.".data ∧
      cleanAuthors "John Smith. Dept." = "John Smith. Dept." :=
  ⟨by decide, by decide, by decide,
    c8_clean_identity "John Smith. Dept." (by decide) (by decide) (by decide)⟩

/-- C9: staged filenames end in `.html`, and after a successful staging
run over a directory snapshot that lists every staged file, no `.html`
file remains — deletion is unconditional, independent of retention. -/
theorem c9_staged_deleted (fetch : String → Node) (hrefs : List String) (fs0 : FS)
    (names : List String) (out : List ArticleRecord × FS)
    (hcover : ∀ n, n ∈ fsKeys (firstPass fetch hrefs fs0) → n ∈ names)
    (hok : main_staging fetch hrefs fs0 names = Except.ok out) :
    (∀ i : Nat, endsWithHtml (stagedName i) = true) ∧
      ∀ n, endsWithHtml n = true → fsLookup out.2 n = none := by
  constructor
  · intro i
    unfold endsWithHtml stagedName
    rw [List.isSuffixOf_iff_suffix, String.data_append]
    exact List.suffix_append _ _
  · intro n hh
    by_cases hmem : n ∈ names
    · exact secondPass_html_deleted names (firstPass fetch hrefs fs0) out n hok hmem hh
    · match hc : fsLookup out.2 n with
      | none => rfl
      | some c =>
        have hin := secondPass_lookup_mono names (firstPass fetch hrefs fs0) out n c hok hc
        exact absurd (hcover n (fsLookup_mem_keys hin)) hmem

/-- C9 witness: one staged page, listed and deleted. -/
theorem c9_staged_deleted_witness :
    endsWithHtml (stagedName 1) = true ∧ fsLookup ([] : FS) "page_1.html" = none := by
  have h := c9_staged_deleted (fun _ => docTitled "T") ["/doi/abs/a"] [] ["page_1.html"]
    ([recT], []) (fun n hn => hn) rfl
  exact ⟨h.1 1, h.2 "page_1.html" (by decide)⟩

/-- C10: a pre-existing `.html` file in the directory snapshot is parsed
by the second pass (its retained record lands in the output) and is
deleted like the staged files. -/
theorem c10_preexisting_processed (names : List String) (fs : FS)
    (out : List ArticleRecord × FS) (n : String) (doc : Node)
    (h1 : n ∈ names) (h2 : endsWithHtml n = true) (h3 : fsLookup fs n = some doc)
    (hok : secondPass names fs = Except.ok out) :
    fsLookup out.2 n = none ∧
      ∀ r, extractRecordStaging doc = Except.ok r → isRetained r = true → r ∈ out.1 :=
  ⟨secondPass_html_deleted names fs out n hok h1 h2,
    fun r he hret => secondPass_record_mem names fs out n doc r hok h1 h2 h3 he hret⟩

/-- C10 witness: a pre-existing titled page is extracted into the output
and removed. -/
theorem c10_preexisting_processed_witness :
    fsLookup (([recP], ([] : FS)) : List ArticleRecord × FS).2 "pre.html" = none ∧
      recP ∈ [recP] := by
  have h := c10_preexisting_processed ["pre.html"] [("pre.html", docTitled "P")]
    ([recP], []) "pre.html" (docTitled "P") (List.mem_cons_self _ _) (by decide) rfl rfl
  exact ⟨h.1, h.2 recP rfl rfl⟩

end WebScrape
